import Mathlib

/-
Verification of the atlas messaging / worker subsystem.

The definitions below are a shallow embedding of the Go source:
  - GoErr models a Go error value as seen by errors.Is checks against
    context.Canceled and context.DeadlineExceeded.
  - Message, Handler model the messaging package data types.
  - kafkaConsume models the loop body of kafkaClient.Consume, driven by a
    finite script of fetch outcomes; it returns the ordered trace of observable
    events (log lines, sleeps, handler calls, commit calls) together with the
    return value of Consume (none while the loop is still running).
  - consumeLoopWaits models the backoff sequence of Engine.consumeLoop.
  - buildRegistry, startResult, stopResult, dispatch model NewEngine,
    Engine.start, Engine.stop and the per-message dispatch closure.
  - noopPublish, noopConsume, noopTopic model the noop client.
-/

namespace Atlas

/-- Model of a Go error value: context.Canceled, context.DeadlineExceeded, or
any other error carrying a message string. -/
inductive GoErr where
  | canceled
  | deadlineExceeded
  | other (msg : String)
deriving DecidableEq, Repr

/-- Models the check errors.Is(err, context.Canceled) || errors.Is(err, context.DeadlineExceeded)
used by kafkaClient.Consume and Engine.consumeLoop. -/
def GoErr.isCancellation : GoErr → Bool
  | .canceled => true
  | .deadlineExceeded => true
  | .other _ => false

/-- Model of messaging.Message: topic, key and value byte slices, optional
headers, offset and broker timestamp. -/
structure Message where
  topic : String
  key : List Nat
  value : List Nat
  headers : List (String × String)
  offset : Int
  time : Nat
deriving DecidableEq, Repr

/-- Model of messaging.Handler: a per-message callback returning nil (none) on
success or an error. -/
def Handler : Type := Message → Option GoErr

/-- Outcome of one kafka.Reader.FetchMessage call inside kafkaClient.Consume. -/
inductive FetchOutcome where
  | failure (e : GoErr)
  | success (m : Message)
deriving DecidableEq, Repr

/-- Observable events emitted by one run of the kafkaClient.Consume loop, in
program order. -/
inductive Event where
  | fetchFailedLog (e : GoErr)
  | sleepSeconds (n : Nat)
  | handlerCall (m : Message)
  | handlerFailedLog (offset : Int) (e : GoErr)
  | commitCall (offset : Int)
  | commitWarnLog (e : GoErr)
deriving DecidableEq, Repr

/-- Events of kafkaClient.Consume for one successfully fetched message m:
invoke the handler; on handler error log and skip the commit; on handler
success call CommitMessages, logging a warning if the commit itself fails.
The commit outcome is supplied by the oracle commitRes. -/
def handlerStepEvents (handler : Handler) (commitRes : Message → Option GoErr)
    (m : Message) : List Event :=
  match handler m with
  | some e => [.handlerCall m, .handlerFailedLog m.offset e]
  | none =>
    match commitRes m with
    | some ce => [.handlerCall m, .commitCall m.offset, .commitWarnLog ce]
    | none => [.handlerCall m, .commitCall m.offset]

/-- Model of the kafkaClient.Consume loop, driven by a finite script of fetch
outcomes. Returns the event trace and the return value of Consume: some e when
the loop returned with error e (only on a cancellation-class fetch error),
none when the script ran out with the loop still live. -/
def kafkaConsume (handler : Handler) (commitRes : Message → Option GoErr) :
    List FetchOutcome → List Event × Option GoErr
  | [] => ([], none)
  | .failure e :: rest =>
    if e.isCancellation then ([], some e)
    else
      let r := kafkaConsume handler commitRes rest
      (.fetchFailedLog e :: .sleepSeconds 1 :: r.1, r.2)
  | .success m :: rest =>
    let r := kafkaConsume handler commitRes rest
    (handlerStepEvents handler commitRes m ++ r.1, r.2)

/-- C1: within one Consume call, the delivery attempt of a fetched message
produces its events before any event of the remaining script, and the commit
of that offset is attempted exactly when the handler returned success, exactly
once. -/
theorem consume_commit_iff_handler_success (handler : Handler)
    (commitRes : Message → Option GoErr) (m : Message) (rest : List FetchOutcome) :
    (kafkaConsume handler commitRes (.success m :: rest)).1
        = handlerStepEvents handler commitRes m
            ++ (kafkaConsume handler commitRes rest).1
    ∧ (Event.commitCall m.offset ∈ handlerStepEvents handler commitRes m
        ↔ handler m = none)
    ∧ (handlerStepEvents handler commitRes m).count (Event.commitCall m.offset)
        = (if handler m = none then 1 else 0) := by
  refine ⟨rfl, ?_, ?_⟩
  · unfold handlerStepEvents
    cases hh : handler m with
    | some e => simp
    | none =>
      cases hc : commitRes m with
      | some ce => simp
      | none => simp
  · unfold handlerStepEvents
    cases hh : handler m with
    | some e => simp [List.count_cons]
    | none =>
      cases hc : commitRes m with
      | some ce => simp [List.count_cons]
      | none => simp [List.count_cons]

/-- C3: a non-cancellation fetch error is absorbed: the loop logs it, sleeps
exactly one second and continues with the rest of the script; a fetch error
matching context cancellation or deadline exceeded is returned immediately as
the terminal result of Consume. -/
theorem consume_fetch_error_policy (handler : Handler)
    (commitRes : Message → Option GoErr) (e : GoErr) (rest : List FetchOutcome) :
    (e.isCancellation = false →
      kafkaConsume handler commitRes (.failure e :: rest)
        = (Event.fetchFailedLog e :: Event.sleepSeconds 1
              :: (kafkaConsume handler commitRes rest).1,
           (kafkaConsume handler commitRes rest).2))
    ∧ (e.isCancellation = true →
      kafkaConsume handler commitRes (.failure e :: rest) = ([], some e)) := by
  constructor
  · intro he
    simp [kafkaConsume, he]
  · intro he
    simp [kafkaConsume, he]

/-- Witness for consume_fetch_error_policy at concrete inputs. -/
theorem consume_fetch_error_policy_witness :
    kafkaConsume (fun _ => none) (fun _ => none) [FetchOutcome.failure (.other "net")]
      = ([Event.fetchFailedLog (.other "net"), Event.sleepSeconds 1], none)
    ∧ kafkaConsume (fun _ => none) (fun _ => none) [FetchOutcome.failure .canceled]
      = ([], some .canceled) := by
  constructor
  · have h := (consume_fetch_error_policy (fun _ => none) (fun _ => none)
      (.other "net") []).1 rfl
    simpa [kafkaConsume] using h
  · exact (consume_fetch_error_policy (fun _ => none) (fun _ => none) .canceled []).2 rfl

/-- Events of one script step of kafkaClient.Consume when the loop does not
terminate at that step. -/
def outcomeEvents (handler : Handler) (commitRes : Message → Option GoErr) :
    FetchOutcome → List Event
  | .failure e => [.fetchFailedLog e, .sleepSeconds 1]
  | .success m => handlerStepEvents handler commitRes m

theorem kafkaConsume_trace_join (handler : Handler) (commitRes : Message → Option GoErr) :
    ∀ script : List FetchOutcome,
      (∀ e, FetchOutcome.failure e ∈ script → e.isCancellation = false) →
      (kafkaConsume handler commitRes script).1
        = (script.map (outcomeEvents handler commitRes)).flatten
  | [], _ => by simp [kafkaConsume]
  | .failure e :: rest, h => by
    have he : e.isCancellation = false := h e (by simp)
    have ih := kafkaConsume_trace_join handler commitRes rest
      (fun x hx => h x (List.mem_cons_of_mem _ hx))
    simp [kafkaConsume, he, outcomeEvents, ih]
  | .success m :: rest, h => by
    have ih := kafkaConsume_trace_join handler commitRes rest
      (fun x hx => h x (List.mem_cons_of_mem _ hx))
    simp [kafkaConsume, outcomeEvents, ih]

/-- C7: within one Consume call that never observes a cancellation, the event
trace is exactly the concatenation, in fetch order, of the per-step event
blocks, so message handling is strictly sequential with no pipelining; and a
successfully handled message has its handler call immediately followed by its
commit call inside its own block, before any event of the next fetch. -/
theorem consume_sequential_in_fetch_order (handler : Handler)
    (commitRes : Message → Option GoErr) (script : List FetchOutcome)
    (hnc : ∀ e, FetchOutcome.failure e ∈ script → e.isCancellation = false) :
    (kafkaConsume handler commitRes script).1
        = (script.map (outcomeEvents handler commitRes)).flatten
    ∧ ∀ m : Message, handler m = none →
        ∃ t, handlerStepEvents handler commitRes m
          = Event.handlerCall m :: Event.commitCall m.offset :: t := by
  refine ⟨kafkaConsume_trace_join handler commitRes script hnc, ?_⟩
  intro m hm
  unfold handlerStepEvents
  rw [hm]
  cases hc : commitRes m with
  | some ce => exact ⟨[.commitWarnLog ce], rfl⟩
  | none => exact ⟨[], rfl⟩

/-- Witness for consume_sequential_in_fetch_order on a concrete two-message
script with an always-succeeding handler. -/
theorem consume_sequential_in_fetch_order_witness :
    (kafkaConsume (fun _ => none) (fun _ => none)
        [FetchOutcome.success ⟨"orders", [], [1], [], 5, 0⟩,
         FetchOutcome.success ⟨"orders", [], [2], [], 6, 0⟩]).1
      = ([FetchOutcome.success ⟨"orders", [], [1], [], 5, 0⟩,
          FetchOutcome.success ⟨"orders", [], [2], [], 6, 0⟩].map
            (outcomeEvents (fun _ => none) (fun _ => none))).flatten
    ∧ ∃ t, handlerStepEvents (fun _ => none) (fun _ => none)
          ⟨"orders", [], [1], [], 5, 0⟩
        = Event.handlerCall ⟨"orders", [], [1], [], 5, 0⟩
            :: Event.commitCall 5 :: t := by
  have h := consume_sequential_in_fetch_order (fun _ => none) (fun _ => none)
    [FetchOutcome.success ⟨"orders", [], [1], [], 5, 0⟩,
     FetchOutcome.success ⟨"orders", [], [2], [], 6, 0⟩] (by simp)
  exact ⟨h.1, h.2 ⟨"orders", [], [1], [], 5, 0⟩ rfl⟩

/-- Outcome of one client.Consume call as observed by Engine.consumeLoop:
ok models a nil error, err e models Consume returning error e. -/
inductive ConsumeResult where
  | ok
  | err (e : GoErr)
deriving DecidableEq, Repr

/-- The backoff update of Engine.consumeLoop, in seconds: the Go code doubles
the backoff only while it is strictly below 30 seconds. -/
def nextBackoff (b : Nat) : Nat := if b < 30 then b * 2 else b

/-- Waits performed by Engine.consumeLoop with current backoff b, driven by a
script of Consume outcomes: a nil or cancellation-class result ends the loop;
any other error waits the current backoff and continues with the updated one. -/
def consumeLoopWaitsAux (b : Nat) : List ConsumeResult → List Nat
  | [] => []
  | .ok :: _ => []
  | .err e :: rest =>
    if e.isCancellation then []
    else b :: consumeLoopWaitsAux (nextBackoff b) rest

/-- Waits of one worker loop, starting from the initial one-second backoff. -/
def consumeLoopWaits (script : List ConsumeResult) : List Nat :=
  consumeLoopWaitsAux 1 script

/-- C2 counterexample: after six consecutive fetch-level failures the waits are
1, 2, 4, 8, 16, 32 seconds; the sixth wait is 32, not min(2^5, 30) = 30, and it
exceeds the claimed 30-second ceiling. -/
theorem consume_backoff_cap_counterexample :
    consumeLoopWaits (List.replicate 6 (ConsumeResult.err (GoErr.other "net")))
        = [1, 2, 4, 8, 16, 32]
    ∧ (consumeLoopWaits (List.replicate 6 (ConsumeResult.err (GoErr.other "net")))).getLast?
        ≠ some (min (2 ^ (6 - 1)) 30)
    ∧ ∃ w ∈ consumeLoopWaits (List.replicate 6 (ConsumeResult.err (GoErr.other "net"))),
        30 < w := by
  refine ⟨by decide, by decide, ⟨32, by decide, by decide⟩⟩

theorem nextBackoff_min_pow (i : Nat) :
    nextBackoff (min (2 ^ i) 32) = min (2 ^ (i + 1)) 32 := by
  rcases le_or_lt i 4 with h | h
  · interval_cases i <;> decide
  · have h5 : 5 ≤ i := h
    have h32 : 32 ≤ 2 ^ i := by
      calc 32 = 2 ^ 5 := by norm_num
        _ ≤ 2 ^ i := Nat.pow_le_pow_right (by norm_num) h5
    have h32s : 32 ≤ 2 ^ (i + 1) :=
      le_trans h32 (Nat.pow_le_pow_right (by norm_num) (Nat.le_succ i))
    rw [Nat.min_eq_right h32, Nat.min_eq_right h32s]
    simp [nextBackoff]

theorem consumeLoopWaitsAux_replicate (e : GoErr) (he : e.isCancellation = false) :
    ∀ (n i : Nat),
      consumeLoopWaitsAux (min (2 ^ i) 32) (List.replicate n (ConsumeResult.err e))
        = (List.range n).map (fun j => min (2 ^ (i + j)) 32)
  | 0, i => by simp [consumeLoopWaitsAux]
  | n + 1, i => by
    have ih := consumeLoopWaitsAux_replicate e he n (i + 1)
    rw [List.replicate_succ]
    rw [show consumeLoopWaitsAux (min (2 ^ i) 32)
          (ConsumeResult.err e :: List.replicate n (ConsumeResult.err e))
        = min (2 ^ i) 32 :: consumeLoopWaitsAux (nextBackoff (min (2 ^ i) 32))
            (List.replicate n (ConsumeResult.err e)) by
      simp [consumeLoopWaitsAux, he]]
    rw [nextBackoff_min_pow, ih, List.range_succ_eq_map]
    rw [List.map_cons, List.map_map]
    have hfun : ((fun j => min (2 ^ (i + j)) 32) ∘ Nat.succ)
        = (fun j => min (2 ^ (i + 1 + j)) 32) := by
      funext j
      have hj : i + Nat.succ j = i + 1 + j := by omega
      simp [Function.comp_apply, hj]
    rw [hfun]
    simp

/-- C2 amended: for every sequence of consecutive fetch-level failures, the
wait before retry number k equals min(2^(k-1), 32) seconds: the first failure
waits 1 second, each subsequent consecutive failure doubles the wait up to a
cap of 32 seconds (not 30), and the waits are monotonically non-decreasing. -/
theorem consumeLoop_backoff_waits (e : GoErr) (he : e.isCancellation = false) (n : Nat) :
    consumeLoopWaits (List.replicate n (ConsumeResult.err e))
        = (List.range n).map (fun k => min (2 ^ k) 32)
    ∧ (∀ i j : Nat, i ≤ j → min (2 ^ i) 32 ≤ min (2 ^ j) 32) := by
  constructor
  · have h := consumeLoopWaitsAux_replicate e he n 0
    simpa [consumeLoopWaits] using h
  · intro i j hij
    exact min_le_min (Nat.pow_le_pow_right (by norm_num) hij) le_rfl

/-- Witness for consumeLoop_backoff_waits at a concrete failure script. -/
theorem consumeLoop_backoff_waits_witness :
    consumeLoopWaits (List.replicate 8 (ConsumeResult.err (GoErr.other "net")))
        = [1, 2, 4, 8, 16, 32, 32, 32] := by
  rw [(consumeLoop_backoff_waits (GoErr.other "net") rfl 8).1]
  decide

/-- Model of config.Workers: enabled flag and the configured concurrency. -/
structure WorkersConfig where
  enabled : Bool
  concurrency : Int

/-- Model of config.Messaging as used by Engine.start. -/
structure MessagingConfig where
  enabled : Bool
  workers : WorkersConfig

/-- Model of worker.HandlerRegistration; a nil Go handler is none. -/
structure HandlerRegistration where
  topic : String
  handler : Option Handler

/-- Go map assignment reg[k] = v on an association list: overwrite the value
of an existing key, otherwise append the new binding. -/
def mapInsert (m : List (String × Handler)) (k : String) (v : Handler) :
    List (String × Handler) :=
  if m.any (fun p => p.1 == k) then
    m.map (fun p => if p.1 == k then (k, v) else p)
  else m ++ [(k, v)]

/-- Go map lookup reg[k] on an association list. -/
def mapLookup (m : List (String × Handler)) (k : String) : Option Handler :=
  (m.find? (fun p => p.1 == k)).map Prod.snd

/-- One iteration of the registration loop in NewEngine: registrations with an
empty topic or a nil handler are skipped, the rest are written into the map. -/
def registryStep (acc : List (String × Handler)) (r : HandlerRegistration) :
    List (String × Handler) :=
  match r.handler with
  | none => acc
  | some h => if r.topic == "" then acc else mapInsert acc r.topic h

/-- The registry assembled by NewEngine from the registration list. -/
def buildRegistry (regs : List HandlerRegistration) : List (String × Handler) :=
  regs.foldl registryStep []

/-- Validity filter matching the guard in NewEngine. -/
def validReg (r : HandlerRegistration) : Bool :=
  !(r.topic == "") && r.handler.isSome

/-- Model of Engine.start: the number of worker loops spawned together with
the returned error. Messaging disabled, worker pool disabled, or an empty
registry short-circuit to zero loops; otherwise the configured concurrency is
used, replaced by 1 when it is zero or below. start never returns an error. -/
def startResult (cfg : MessagingConfig) (registry : List (String × Handler)) :
    Nat × Option GoErr :=
  if !cfg.enabled || !cfg.workers.enabled then (0, none)
  else if registry.length == 0 then (0, none)
  else
    let c := if cfg.workers.concurrency ≤ 0 then 1 else cfg.workers.concurrency
    (c.toNat, none)

/-- C4: Engine start spawns zero loops and returns no error when messaging is
disabled, the worker pool is disabled, or the registry is empty; otherwise it
spawns exactly the configured concurrency, with non-positive values replaced
by 1, and still returns no error. -/
theorem engine_start_spawns (cfg : MessagingConfig) (registry : List (String × Handler)) :
    ((cfg.enabled = false ∨ cfg.workers.enabled = false ∨ registry = []) →
      startResult cfg registry = (0, none))
    ∧ (cfg.enabled = true → cfg.workers.enabled = true → registry ≠ [] →
      startResult cfg registry
        = ((if cfg.workers.concurrency ≤ 0 then 1 else cfg.workers.concurrency).toNat,
           none)) := by
  constructor
  · rintro (h | h | h)
    · simp [startResult, h]
    · simp [startResult, h]
    · cases hce : cfg.enabled <;> cases hcw : cfg.workers.enabled <;>
        simp [startResult, h, hce, hcw]
  · intro h1 h2 h3
    have hlen : (registry.length == 0) = false := by
      simp [List.length_eq_zero, h3]
    simp [startResult, h1, h2, hlen]

/-- Witness for engine_start_spawns on concrete configurations. -/
theorem engine_start_spawns_witness :
    startResult ⟨false, ⟨true, 4⟩⟩ [] = (0, none)
    ∧ startResult ⟨true, ⟨true, 4⟩⟩ [("orders", fun _ => none)] = (4, none)
    ∧ startResult ⟨true, ⟨true, -3⟩⟩ [("orders", fun _ => none)] = (1, none) := by
  refine ⟨(engine_start_spawns ⟨false, ⟨true, 4⟩⟩ []).1 (Or.inl rfl), ?_, ?_⟩
  · exact ((engine_start_spawns ⟨true, ⟨true, 4⟩⟩ [("orders", fun _ => none)]).2
      rfl rfl (by simp)).trans (by decide)
  · exact ((engine_start_spawns ⟨true, ⟨true, -3⟩⟩ [("orders", fun _ => none)]).2
      rfl rfl (by simp)).trans (by decide)

theorem find?_map_overwrite (k : String) (v : Handler) :
    ∀ m : List (String × Handler), m.any (fun p => p.1 == k) = true →
      ((m.map fun p => if p.1 == k then (k, v) else p).find? fun p => p.1 == k)
        = some (k, v)
  | [], h => by simp at h
  | p :: tl, h => by
    cases hp : (p.1 == k) with
    | true =>
      simp only [List.map_cons, hp, if_true]
      rw [List.find?_cons_of_pos]
      simp
    | false =>
      have htl : tl.any (fun p => p.1 == k) = true := by
        rw [List.any_cons, hp] at h
        simpa using h
      have ih := find?_map_overwrite k v tl htl
      simp only [List.map_cons, hp, if_false]
      rw [List.find?_cons_of_neg]
      · exact ih
      · simp [hp]

theorem find?_append_of_any_false (k : String) :
    ∀ m l2 : List (String × Handler), m.any (fun p => p.1 == k) = false →
      ((m ++ l2).find? fun p => p.1 == k) = l2.find? fun p => p.1 == k
  | [], l2, _ => rfl
  | p :: tl, l2, h => by
    rw [List.any_cons] at h
    have hp : (p.1 == k) = false := by
      cases hh : (p.1 == k) <;> simp [hh] at h ⊢
    have htl : tl.any (fun p => p.1 == k) = false := by
      cases hh : tl.any (fun p => p.1 == k) <;> simp [hh, hp] at h ⊢
    rw [List.cons_append, List.find?_cons_of_neg]
    · exact find?_append_of_any_false k tl l2 htl
    · simp [hp]

theorem mapLookup_mapInsert_self (m : List (String × Handler)) (k : String) (v : Handler) :
    mapLookup (mapInsert m k v) k = some v := by
  unfold mapLookup mapInsert
  by_cases hany : (m.any fun p => p.1 == k) = true
  · rw [if_pos hany, find?_map_overwrite k v m hany]
    rfl
  · have hf : (m.any fun p => p.1 == k) = false := by
      cases hh : m.any (fun p => p.1 == k)
      · rfl
      · exact absurd hh hany
    rw [if_neg hany, find?_append_of_any_false k m [(k, v)] hf]
    rw [List.find?_cons_of_pos]
    · rfl
    · simp

/-- C9: appending a registration with non-empty topic t and a non-nil handler
to any registration list makes the registry built by NewEngine map t to that
handler, whatever earlier registrations claimed t: the last registration wins
and no error is raised. -/
theorem registry_last_wins (regs : List HandlerRegistration) (t : String) (h : Handler)
    (ht : t ≠ "") :
    mapLookup (buildRegistry (regs ++ [⟨t, some h⟩])) t = some h := by
  unfold buildRegistry
  rw [List.foldl_append]
  have hstep : registryStep (regs.foldl registryStep []) ⟨t, some h⟩
      = mapInsert (regs.foldl registryStep []) t h := by
    simp only [registryStep]
    rw [if_neg (by simp [ht])]
  simp only [List.foldl_cons, List.foldl_nil, hstep]
  exact mapLookup_mapInsert_self _ t h

/-- Witness for registry_last_wins on two duplicate registrations. -/
theorem registry_last_wins_witness :
    mapLookup (buildRegistry [⟨"orders", some fun _ => none⟩,
        ⟨"orders", some fun _ => some GoErr.canceled⟩]) "orders"
      = some (fun _ => some GoErr.canceled) :=
  registry_last_wins [⟨"orders", some fun _ => none⟩] "orders"
    (fun _ => some GoErr.canceled) (by decide)

theorem mapInsert_keys_ne (m : List (String × Handler)) (k : String) (v : Handler)
    (hk : k ≠ "") (hm : ∀ p ∈ m, p.1 ≠ "") :
    ∀ p ∈ mapInsert m k v, p.1 ≠ "" := by
  intro p hp
  unfold mapInsert at hp
  by_cases hany : (m.any fun q => q.1 == k) = true
  · rw [if_pos hany] at hp
    rcases List.mem_map.mp hp with ⟨q, hq, hfq⟩
    by_cases hqk : (q.1 == k) = true
    · rw [if_pos hqk] at hfq
      rw [← hfq]
      exact hk
    · rw [if_neg hqk] at hfq
      rw [← hfq]
      exact hm q hq
  · rw [if_neg hany] at hp
    rcases List.mem_append.mp hp with hp | hp
    · exact hm p hp
    · rcases List.mem_singleton.mp hp with rfl
      exact hk

theorem foldl_registryStep_keys_ne (regs : List HandlerRegistration) :
    ∀ acc : List (String × Handler), (∀ p ∈ acc, p.1 ≠ "") →
      ∀ p ∈ regs.foldl registryStep acc, p.1 ≠ "" := by
  induction regs with
  | nil => intro acc hacc; simpa using hacc
  | cons r rest ih =>
    intro acc hacc
    rw [List.foldl_cons]
    apply ih
    unfold registryStep
    cases hh : r.handler with
    | none => exact hacc
    | some f =>
      dsimp only
      by_cases htp : (r.topic == "") = true
      · rw [if_pos htp]; exact hacc
      · rw [if_neg htp]
        exact mapInsert_keys_ne acc r.topic f
          (by intro hc; exact htp (by simp [hc])) hacc

theorem registryStep_invalid (acc : List (String × Handler)) (r : HandlerRegistration)
    (h : validReg r = false) : registryStep acc r = acc := by
  unfold registryStep
  cases hh : r.handler with
  | none => rfl
  | some f =>
    unfold validReg at h
    rw [hh] at h
    simp only [Option.isSome_some, Bool.and_true, Bool.not_eq_false'] at h
    dsimp only
    rw [if_pos h]

theorem foldl_registryStep_filter (regs : List HandlerRegistration) :
    ∀ acc : List (String × Handler),
      regs.foldl registryStep acc = (regs.filter validReg).foldl registryStep acc := by
  induction regs with
  | nil => intro acc; rfl
  | cons r rest ih =>
    intro acc
    rw [List.foldl_cons]
    cases hv : validReg r with
    | true =>
      rw [List.filter_cons_of_pos hv, List.foldl_cons]
      exact ih _
    | false =>
      rw [List.filter_cons_of_neg (by simp [hv]), registryStep_invalid acc r hv]
      exact ih _

/-- C10: the registry built by NewEngine drops every registration with an
empty topic or a nil handler: every surviving entry has a non-empty topic,
the registry only depends on the valid registrations, and a registration list
made of degenerate entries only yields an empty registry, in which case start
spawns zero loops and returns no error. -/
theorem registry_drops_degenerate (regs : List HandlerRegistration) :
    (∀ p ∈ buildRegistry regs, p.1 ≠ "")
    ∧ buildRegistry regs = buildRegistry (regs.filter validReg)
    ∧ ((∀ r ∈ regs, r.topic = "" ∨ r.handler = none) →
        buildRegistry regs = []
        ∧ ∀ cfg : MessagingConfig, startResult cfg (buildRegistry regs) = (0, none)) := by
  refine ⟨?_, ?_, ?_⟩
  · exact foldl_registryStep_keys_ne regs [] (by simp)
  · unfold buildRegistry
    exact foldl_registryStep_filter regs []
  · intro hdeg
    have hfil : regs.filter validReg = [] := by
      rw [List.filter_eq_nil_iff]
      intro r hr
      rcases hdeg r hr with h | h
      · simp [validReg, h]
      · simp [validReg, h]
    have hempty : buildRegistry regs = [] := by
      unfold buildRegistry
      rw [foldl_registryStep_filter regs [], hfil]
      rfl
    refine ⟨hempty, ?_⟩
    intro cfg
    rw [hempty]
    cases hce : cfg.enabled <;> cases hcw : cfg.workers.enabled <;>
      simp [startResult, hce, hcw]

/-- Witness for registry_drops_degenerate on a registration list whose entries
are all degenerate. -/
theorem registry_drops_degenerate_witness :
    buildRegistry [⟨"", some fun _ => none⟩, ⟨"orders", none⟩] = []
    ∧ startResult ⟨true, ⟨true, 2⟩⟩
        (buildRegistry [⟨"", some fun _ => none⟩, ⟨"orders", none⟩]) = (0, none) := by
  have h := (registry_drops_degenerate [⟨"", some fun _ => none⟩, ⟨"orders", none⟩]).2.2
    (by
      intro r hr
      rcases List.mem_cons.mp hr with rfl | hr
      · left; rfl
      · rcases List.mem_singleton.mp hr with rfl
        right; rfl)
  exact ⟨h.1, h.2 ⟨true, ⟨true, 2⟩⟩⟩

/-- Log lines emitted by the per-message dispatch closure in Engine.consumeLoop. -/
inductive DispatchLog where
  | warnNoHandler (topic : String)
  | debugProcessing (topic : String) (workerID : Nat)
deriving DecidableEq, Repr

/-- Model of the dispatch closure passed by Engine.consumeLoop to Consume:
look up the handler for the topic of the message; when absent log a warning
and return nil, when present log a debug line and return the handler result. -/
def dispatch (registry : List (String × Handler)) (workerID : Nat) (m : Message) :
    List DispatchLog × Option GoErr :=
  match mapLookup registry m.topic with
  | none => ([.warnNoHandler m.topic], none)
  | some h => ([.debugProcessing m.topic workerID], h m)

/-- C5: when the topic of a message has no registered handler, the dispatch
closure logs exactly one warning, invokes no handler, and returns success, so
that feeding the closure into the Consume loop makes the delivery attempt of
that message reach its commit call. -/
theorem dispatch_missing_handler_commits (registry : List (String × Handler))
    (workerID : Nat) (m : Message) (commitRes : Message → Option GoErr)
    (h : mapLookup registry m.topic = none) :
    dispatch registry workerID m = ([DispatchLog.warnNoHandler m.topic], none)
    ∧ Event.commitCall m.offset
        ∈ handlerStepEvents (fun msg => (dispatch registry workerID msg).2) commitRes m := by
  have hd : dispatch registry workerID m = ([.warnNoHandler m.topic], none) := by
    unfold dispatch
    rw [h]
  refine ⟨hd, ?_⟩
  have h2 : (dispatch registry workerID m).2 = none := by rw [hd]
  unfold handlerStepEvents
  rw [show (fun msg => (dispatch registry workerID msg).2) m
        = (dispatch registry workerID m).2 from rfl, h2]
  cases hc : commitRes m <;> simp

/-- Witness for dispatch_missing_handler_commits with an empty registry. -/
theorem dispatch_missing_handler_commits_witness :
    dispatch [] 0 ⟨"unknown.topic", [], [], [], 7, 0⟩
        = ([DispatchLog.warnNoHandler "unknown.topic"], none)
    ∧ Event.commitCall 7
        ∈ handlerStepEvents (fun msg => (dispatch [] 0 msg).2) (fun _ => none)
            ⟨"unknown.topic", [], [], [], 7, 0⟩ :=
  dispatch_missing_handler_commits [] 0 ⟨"unknown.topic", [], [], [], 7, 0⟩
    (fun _ => none) rfl

/-- Which arm of the select in Engine.stop fires first: the caller-supplied
stop context reaching its deadline, or the wait group of the loops draining. -/
inductive StopRace where
  | ctxDoneFirst
  | loopsDoneFirst
deriving DecidableEq, Repr

/-- Observable actions of Engine.stop. -/
inductive StopEvent where
  | cancelRun
  | loopsJoined
deriving DecidableEq, Repr

/-- Model of Engine.stop: when no cancel function was ever set (engine never
started) it returns nil at once; otherwise it cancels the shared run context
and races the wait-group drain against the stop context: if the stop context
is done first the stop returns that context error without waiting further,
and if the loops drain first it returns nil. -/
def stopResult (cancelSet : Bool) (race : StopRace) (ctxErr : GoErr) :
    List StopEvent × Option GoErr :=
  if cancelSet = false then ([], none)
  else
    match race with
    | .ctxDoneFirst => ([.cancelRun], some ctxErr)
    | .loopsDoneFirst => ([.cancelRun, .loopsJoined], none)

/-- C6: stop on a never-started engine returns nil without doing anything;
stop on a started engine cancels the run context and then either joins all
loops and returns nil, or, when the stop context deadline elapses first,
returns that context error without having joined the loops. -/
theorem engine_stop_policy (race : StopRace) (ctxErr : GoErr) :
    stopResult false race ctxErr = ([], none)
    ∧ stopResult true .loopsDoneFirst ctxErr
        = ([StopEvent.cancelRun, StopEvent.loopsJoined], none)
    ∧ (stopResult true .ctxDoneFirst ctxErr).2 = some ctxErr
    ∧ StopEvent.loopsJoined ∉ (stopResult true .ctxDoneFirst ctxErr).1
    ∧ StopEvent.cancelRun ∈ (stopResult true .ctxDoneFirst ctxErr).1 := by
  refine ⟨rfl, rfl, rfl, ?_, ?_⟩
  · simp [stopResult]
  · simp [stopResult]

/-- Model of the noop client used when messaging is disabled. -/
structure NoopClient where
  topic : String

/-- Publish of the noop client: always nil. -/
def noopPublish (c : NoopClient) (key value : List Nat) : Option GoErr := none

/-- Consume of the noop client: it blocks on ctx.Done() and then returns
ctx.Err(); the eventual context error is the argument. -/
def noopConsume (c : NoopClient) (ctxDoneErr : GoErr) : Option GoErr :=
  some ctxDoneErr

/-- Topic of the noop client: the configured topic string. -/
def noopTopic (c : NoopClient) : String := c.topic

/-- C8: the noop client publishes with unconditional success, its Consume
returns exactly the error of the context it blocked on, and Topic returns the
configured topic string. -/
theorem noop_client_contract (c : NoopClient) (key value : List Nat) (e : GoErr) :
    noopPublish c key value = none
    ∧ noopConsume c e = some e
    ∧ noopTopic c = c.topic := ⟨rfl, rfl, rfl⟩

end Atlas
